import Mathlib

/-
Shallow embedding of the crowdfunding campaign contract in
src/contracts/crowdfund/src/lib.rs (CrowdfundContract).

Modelling conventions:
- Soroban Address values are natural numbers; i128 amounts are unbounded Int
  (no claim hinges on i128 wrap-around; the one overflow-checked spot, the fee
  multiplication in withdraw, uses checked_mul/checked_div which abort rather
  than wrap, so unbounded Int is conservative there).
- u64 timestamps are Nat.
- Instance and persistent storage are flattened into one Campaign record; per
  contributor Contribution(addr) cells become an association list that keeps a
  key once it has been written (the contract only ever zeroes entries, it never
  deletes them). extend_ttl calls have no semantic content and are dropped.
- Each public function takes the set of identities that authorized the call
  (require_auth succeeds exactly for those) and the current ledger timestamp,
  and returns Except: ok carries the new state plus the list of asset
  transfers issued by the call, error means the call failed (typed Err return
  or fatal abort) and, by the host transactional semantics, no state change
  and no transfer is committed.
- The external token contract rejects negative transfer amounts (the Stellar
  asset contract traps on them); balance shortfalls are not modelled, which
  only enlarges the set of committed calls and so only strengthens the
  invariants proved below.
-/

namespace StellarRaise

/-- Identities (Soroban Address values) modelled as natural numbers. -/
abbrev Address := Nat

/-- Campaign lifecycle status, lib.rs enum Status. -/
inductive Status where
  | Active
  | Successful
  | Refunded
  | Cancelled
deriving DecidableEq, Repr

/-- Roadmap entry, lib.rs struct RoadmapItem. -/
structure RoadmapItem where
  date : Nat
  description : String
deriving DecidableEq, Repr

/-- Platform fee configuration, lib.rs struct PlatformConfig. -/
structure PlatformConfig where
  address : Address
  fee_bps : Nat
deriving DecidableEq, Repr

/-- Typed recoverable errors, lib.rs enum ContractError. -/
inductive ContractError where
  | AlreadyInitialized
  | CampaignEnded
  | CampaignStillActive
  | GoalNotReached
  | GoalReached
deriving DecidableEq, Repr

/-- How a call can fail: a require_auth trap, an explicit fatal abort with its
message, or a typed Err return. In every case the host rolls the call back. -/
inductive Abort where
  | unauthorized (who : Address)
  | fatal (msg : String)
  | contractErr (e : ContractError)
deriving DecidableEq, Repr

/-- One asset transfer issued through the token client. -/
structure Transfer where
  sender : Address
  recipient : Address
  amount : Int
deriving DecidableEq, Repr

/-- The campaign instance storage: one field per DataKey used by lib.rs. -/
structure Campaign where
  creator : Address
  token : Address
  goal : Int
  deadline : Nat
  min_contribution : Int
  total_raised : Int
  status : Status
  contributions : List (Address × Int)
  contributors : List Address
  platform_config : Option PlatformConfig
  nft_contract : Option Address
  roadmap : List RoadmapItem
deriving DecidableEq, Repr

/-- Read of storage key Contribution(a) with unwrap_or(0). -/
def lookupContribution : List (Address × Int) → Address → Int
  | [], _ => 0
  | (k, v) :: rest, a => if k = a then v else lookupContribution rest a

/-- Write of storage key Contribution(a): replace the cell if present,
create it otherwise. -/
def setContribution : List (Address × Int) → Address → Int → List (Address × Int)
  | [], a, v => [(a, v)]
  | (k, w) :: rest, a, v =>
      if k = a then (a, v) :: rest else (k, w) :: setContribution rest a v

/-- Address of the campaign contract itself, env.current_contract_address(). -/
def currentContractAddress : Address := 0

/-- External token client transfer. The Stellar asset contract traps on a
negative amount; otherwise the transfer is recorded. Balance shortfalls are
not modelled (see the header comment). -/
def tokenTransfer (sender recipient : Address) (amount : Int) : Except Abort Transfer :=
  if amount < 0 then .error (.fatal "negative amount is not allowed")
  else .ok ⟨sender, recipient, amount⟩

/-- The initialize entry point, lib.rs lines 100-147. The storage argument is
some s when the campaign record already exists and none on a fresh instance. -/
def initCampaign (store : Option Campaign) (auths : List Address)
    (creator token : Address) (goal : Int) (deadline : Nat)
    (min_contribution : Int) (platform_config : Option PlatformConfig) :
    Except Abort Campaign :=
  match store with
  | some _ => .error (.contractErr .AlreadyInitialized)
  | none =>
    if creator ∈ auths then
      match platform_config with
      | some config =>
        if 10000 < config.fee_bps then
          .error (.fatal "platform fee cannot exceed 100%")
        else
          .ok { creator := creator, token := token, goal := goal,
                deadline := deadline, min_contribution := min_contribution,
                total_raised := 0, status := Status.Active,
                contributions := [], contributors := [],
                platform_config := some config, nft_contract := none,
                roadmap := [] }
      | none =>
        .ok { creator := creator, token := token, goal := goal,
              deadline := deadline, min_contribution := min_contribution,
              total_raised := 0, status := Status.Active,
              contributions := [], contributors := [],
              platform_config := none, nft_contract := none,
              roadmap := [] }
    else .error (.unauthorized creator)

/-- The contribute entry point, lib.rs lines 161-223. Checks, in source
order: contributor auth, status Active, minimum amount, deadline; then
transfers the amount in, bumps the ledger cell and total_raised, and appends
the contributor to the list when absent. -/
def contribute (s : Campaign) (auths : List Address) (now : Nat)
    (contributor : Address) (amount : Int) :
    Except Abort (Campaign × List Transfer) :=
  if contributor ∉ auths then .error (.unauthorized contributor)
  else if s.status ≠ Status.Active then .error (.fatal "campaign is not active")
  else if amount < s.min_contribution then .error (.fatal "amount below minimum")
  else if s.deadline < now then .error (.contractErr .CampaignEnded)
  else
    match tokenTransfer contributor currentContractAddress amount with
    | .error a => .error a
    | .ok tr =>
      let previous_amount := lookupContribution s.contributions contributor
      let contributions := setContribution s.contributions contributor (previous_amount + amount)
      let total_raised := s.total_raised + amount
      let contributors :=
        if contributor ∈ s.contributors then s.contributors
        else s.contributors ++ [contributor]
      .ok ({ s with contributions := contributions,
                    total_raised := total_raised,
                    contributors := contributors }, [tr])

/-- The withdraw entry point, lib.rs lines 225-311. Checks status, creator
auth, deadline passed, goal reached; splits a basis-point fee when a platform
config is stored (i128 division truncates toward zero, Int.tdiv); transfers
the payout(s); zeroes total_raised and marks the campaign Successful. The NFT
minting loop only reads campaign storage and calls the external hook, so it
contributes nothing to the state. -/
def withdraw (s : Campaign) (auths : List Address) (now : Nat) :
    Except Abort (Campaign × List Transfer) :=
  if s.status ≠ Status.Active then .error (.fatal "campaign is not active")
  else if s.creator ∉ auths then .error (.unauthorized s.creator)
  else if now ≤ s.deadline then .error (.contractErr .CampaignStillActive)
  else if s.total_raised < s.goal then .error (.contractErr .GoalNotReached)
  else
    match s.platform_config with
    | some config =>
      let fee := Int.tdiv (s.total_raised * (config.fee_bps : Int)) 10000
      match tokenTransfer currentContractAddress config.address fee with
      | .error a => .error a
      | .ok trFee =>
        let creator_payout := s.total_raised - fee
        match tokenTransfer currentContractAddress s.creator creator_payout with
        | .error a => .error a
        | .ok trCreator =>
          .ok ({ s with total_raised := 0, status := Status.Successful },
               [trFee, trCreator])
    | none =>
      match tokenTransfer currentContractAddress s.creator s.total_raised with
      | .error a => .error a
      | .ok tr =>
        .ok ({ s with total_raised := 0, status := Status.Successful }, [tr])

/-- The refund_single entry point, lib.rs lines 313-363. Checks contributor
auth, status Active, deadline passed, goal not reached; a zero ledger cell is
a successful no-op; otherwise the stake is transferred back, the cell zeroed,
total_raised decremented, and the campaign becomes Refunded exactly when the
new total is zero. -/
def refund_single (s : Campaign) (auths : List Address) (now : Nat)
    (contributor : Address) : Except Abort (Campaign × List Transfer) :=
  if contributor ∉ auths then .error (.unauthorized contributor)
  else if s.status ≠ Status.Active then .error (.fatal "campaign is not active")
  else if now ≤ s.deadline then .error (.contractErr .CampaignStillActive)
  else if s.goal ≤ s.total_raised then .error (.contractErr .GoalReached)
  else
    let amount := lookupContribution s.contributions contributor
    if amount = 0 then .ok (s, [])
    else
      match tokenTransfer currentContractAddress contributor amount with
      | .error a => .error a
      | .ok tr =>
        let contributions := setContribution s.contributions contributor 0
        let total_raised := s.total_raised - amount
        let status :=
          if s.total_raised - amount = 0 then Status.Refunded else s.status
        .ok ({ s with contributions := contributions,
                      total_raised := total_raised,
                      status := status }, [tr])

/-- The set_nft_contract entry point, lib.rs lines 149-159. -/
def set_nft_contract (s : Campaign) (auths : List Address)
    (creator nft : Address) : Except Abort (Campaign × List Transfer) :=
  if creator ≠ s.creator then .error (.fatal "not authorized")
  else if creator ∉ auths then .error (.unauthorized creator)
  else .ok ({ s with nft_contract := some nft }, [])

/-- The add_roadmap_item entry point, lib.rs lines 365-391. -/
def add_roadmap_item (s : Campaign) (auths : List Address) (now : Nat)
    (date : Nat) (description : String) :
    Except Abort (Campaign × List Transfer) :=
  if s.creator ∉ auths then .error (.unauthorized s.creator)
  else if date ≤ now then .error (.fatal "date must be in the future")
  else if description = "" then .error (.fatal "description cannot be empty")
  else .ok ({ s with roadmap := s.roadmap ++ [⟨date, description⟩] }, [])

/-- One pass of the cancel refund sweep over the ordered contributor list:
every contributor with a positive ledger cell is paid back and zeroed. -/
def cancelSweep : List Address → List (Address × Int) → List (Address × Int) × List Transfer
  | [], store => (store, [])
  | c :: rest, store =>
    let amount := lookupContribution store c
    if 0 < amount then
      let res := cancelSweep rest (setContribution store c 0)
      (res.1, ⟨currentContractAddress, c, amount⟩ :: res.2)
    else cancelSweep rest store

/-- Modelled from the spec: the cancel operation is absent from src/ (only the
repository tests call it, src/contracts/crowdfund/src/test.rs, and the Status
enum declares Cancelled). Section 4.1 of the spec gives the transition
Active to Cancelled, available only while Active (any mutating call against a
non-Active campaign fails) and, per the repository tests, gated on the
creator, refunding every contributor stake and zeroing total_raised before the
campaign is marked Cancelled. -/
def cancel (s : Campaign) (auths : List Address) :
    Except Abort (Campaign × List Transfer) :=
  if s.status ≠ Status.Active then .error (.fatal "campaign is not active")
  else if s.creator ∉ auths then .error (.unauthorized s.creator)
  else
    let res := cancelSweep s.contributors s.contributions
    .ok ({ s with contributions := res.1, total_raised := 0,
                  status := Status.Cancelled }, res.2)

/-- Read-only view of the ledger cell of one contributor, lib.rs lines 415-420. -/
def contribution (s : Campaign) (contributor : Address) : Int :=
  lookupContribution s.contributions contributor

/-- A public mutating call together with its per-call environment: the set of
identities that authorized it and the ledger timestamp at which it runs. -/
inductive Op where
  | initOp (auths : List Address) (creator token : Address) (goal : Int)
      (deadline : Nat) (minc : Int) (cfg : Option PlatformConfig)
  | contributeOp (auths : List Address) (now : Nat) (contributor : Address) (amount : Int)
  | withdrawOp (auths : List Address) (now : Nat)
  | refundSingleOp (auths : List Address) (now : Nat) (contributor : Address)
  | cancelOp (auths : List Address)
  | setNftContractOp (auths : List Address) (creator nft : Address)
  | addRoadmapItemOp (auths : List Address) (now : Nat) (date : Nat) (description : String)

/-- Dispatch one public call against an initialized campaign. A second
initialize always hits the existence check. -/
def stepOp (op : Op) (s : Campaign) : Except Abort (Campaign × List Transfer) :=
  match op with
  | .initOp auths creator token goal deadline minc cfg =>
    match initCampaign (some s) auths creator token goal deadline minc cfg with
    | .ok s2 => .ok (s2, [])
    | .error a => .error a
  | .contributeOp auths now contributor amount => contribute s auths now contributor amount
  | .withdrawOp auths now => withdraw s auths now
  | .refundSingleOp auths now contributor => refund_single s auths now contributor
  | .cancelOp auths => cancel s auths
  | .setNftContractOp auths creator nft => set_nft_contract s auths creator nft
  | .addRoadmapItemOp auths now date description => add_roadmap_item s auths now date description

/-- Committed effect of one call: a failed call is rolled back wholesale. -/
def applyOp (op : Op) (s : Campaign) : Campaign :=
  match stepOp op s with
  | .ok (s2, _) => s2
  | .error _ => s

/-- States reachable from a fresh contract instance by the public surface:
one successful initialize followed by any sequence of public calls. -/
inductive Reachable : Campaign → Prop where
  | boot (auths : List Address) (creator token : Address) (goal : Int)
      (deadline : Nat) (minc : Int) (cfg : Option PlatformConfig) (s : Campaign)
      (h : initCampaign none auths creator token goal deadline minc cfg = .ok s) :
      Reachable s
  | next (s : Campaign) (op : Op) (h : Reachable s) : Reachable (applyOp op s)

/-- Keys of the contribution store. -/
abbrev storeKeys (st : List (Address × Int)) : List Address :=
  st.map Prod.fst

/-- Sum of every ledger cell. -/
def sumValues (st : List (Address × Int)) : Int :=
  (st.map Prod.snd).sum

/-- Sum of the ledger cells holding a positive amount. -/
def posSum : List (Address × Int) → Int
  | [] => 0
  | p :: rest => (if 0 < p.2 then p.2 else 0) + posSum rest

/-- Inductive invariant maintained by every public call: ledger cells are
non-negative, storage keys are unique and covered by the contributor list,
the contributor list is duplicate-free, a stored fee rate is at most 10000
basis points and, as long as the campaign has not paid out (status not
Successful), total_raised is exactly the ledger sum. -/
def Inv (s : Campaign) : Prop :=
  (∀ p ∈ s.contributions, 0 ≤ p.2) ∧
  (storeKeys s.contributions).Nodup ∧
  (∀ p ∈ s.contributions, p.1 ∈ s.contributors) ∧
  s.contributors.Nodup ∧
  (∀ cfg, s.platform_config = some cfg → cfg.fee_bps ≤ 10000) ∧
  (s.status ≠ Status.Successful → s.total_raised = sumValues s.contributions)

/-- Fresh campaign used by the concrete traces below: creator 1, token 2,
goal 1000000, deadline 10, minimum contribution 1000, no platform config. -/
def bootCampaign : Campaign :=
  { creator := 1, token := 2, goal := 1000000, deadline := 10,
    min_contribution := 1000, total_raised := 0, status := Status.Active,
    contributions := [], contributors := [], platform_config := none,
    nft_contract := none, roadmap := [] }

/-- Same fresh campaign but with a platform config of 250 basis points paid
to identity 9. -/
def feeBootCampaign : Campaign :=
  { bootCampaign with platform_config := some ⟨9, 250⟩ }

/-- Identity 3 contributes 600000 before the deadline. -/
def oneContribState : Campaign :=
  applyOp (Op.contributeOp [3] 5 3 600000) bootCampaign

/-- Identity 4 then contributes 400000, reaching the goal exactly. -/
def twoContribState : Campaign :=
  applyOp (Op.contributeOp [4] 5 4 400000) oneContribState

/-- The creator withdraws after the deadline with the goal met. -/
def succState : Campaign :=
  applyOp (Op.withdrawOp [1] 11) twoContribState

/-- The sole contributor reclaims its stake after the deadline, goal unmet. -/
def refundedState : Campaign :=
  applyOp (Op.refundSingleOp [3] 11 3) oneContribState

/-- The creator cancels the campaign while it is Active. -/
def cancelledState : Campaign :=
  applyOp (Op.cancelOp [1]) oneContribState

/-- Identity 3 contributes the full goal on the fee-configured campaign. -/
def feeContribState : Campaign :=
  applyOp (Op.contributeOp [3] 5 3 1000000) feeBootCampaign

/-- Identity 3 contributes 300000 twice. -/
def dupContribState : Campaign :=
  applyOp (Op.contributeOp [3] 6 3 300000)
    (applyOp (Op.contributeOp [3] 5 3 300000) bootCampaign)

/-- Campaign produced by initializing with goal 0. -/
def zeroGoalCampaign : Campaign :=
  { bootCampaign with goal := 0 }

/-- Result state of the fee-configured payout. -/
def feeSuccState : Campaign :=
  { feeContribState with total_raised := 0, status := Status.Successful }

/-- Transfers issued by the fee-configured payout: 250 bps of 1000000 to the
fee recipient, the rest to the creator. -/
def feeWithTrs : List Transfer :=
  [⟨currentContractAddress, 9, 25000⟩, ⟨currentContractAddress, 1, 975000⟩]

/-- Transfers issued by the no-fee payout. -/
def succTrs : List Transfer :=
  [⟨currentContractAddress, 1, 1000000⟩]

theorem lookupContribution_setContribution_self (st : List (Address × Int))
    (a : Address) (v : Int) :
    lookupContribution (setContribution st a v) a = v := by
  induction st with
  | nil => simp [setContribution, lookupContribution]
  | cons p rest ih =>
    obtain ⟨k, w⟩ := p
    by_cases h : k = a <;>
      simp [setContribution, lookupContribution, h, ih]

theorem sumValues_setContribution (st : List (Address × Int)) (a : Address) (v : Int) :
    sumValues (setContribution st a v) =
      sumValues st + v - lookupContribution st a := by
  induction st with
  | nil => simp [setContribution, lookupContribution, sumValues]
  | cons p rest ih =>
    obtain ⟨k, w⟩ := p
    by_cases h : k = a
    · simp [setContribution, lookupContribution, h, sumValues]
      omega
    · simp [setContribution, lookupContribution, h, sumValues] at ih ⊢
      omega

theorem mem_setContribution (a : Address) (v : Int) (p : Address × Int) :
    ∀ st : List (Address × Int), p ∈ setContribution st a v → p ∈ st ∨ p = (a, v) := by
  intro st
  induction st with
  | nil =>
    intro hp
    right
    simpa [setContribution] using hp
  | cons q rest ih =>
    obtain ⟨k, w⟩ := q
    intro hp
    by_cases h : k = a
    · simp [setContribution, h] at hp
      rcases hp with hp | hp
      · right; simp [hp]
      · left; simp [hp]
    · simp [setContribution, h] at hp
      rcases hp with hp | hp
      · left; simp [hp]
      · rcases ih hp with hm | hm
        · left; simp [hm]
        · right; exact hm

theorem lookupContribution_mem :
    ∀ (st : List (Address × Int)) (a : Address), lookupContribution st a ≠ 0 →
      (a, lookupContribution st a) ∈ st := by
  intro st a
  induction st with
  | nil =>
    intro h
    simp [lookupContribution] at h
  | cons p rest ih =>
    obtain ⟨k, w⟩ := p
    intro h
    by_cases hk : k = a
    · subst hk
      simp [lookupContribution] at h ⊢
    · simp [lookupContribution, hk] at h ⊢
      right
      exact ih h

theorem lookupContribution_nonneg :
    ∀ (st : List (Address × Int)) (a : Address), (∀ p ∈ st, 0 ≤ p.2) →
      0 ≤ lookupContribution st a := by
  intro st a
  induction st with
  | nil =>
    intro _
    simp [lookupContribution]
  | cons p rest ih =>
    obtain ⟨k, w⟩ := p
    intro h
    by_cases hk : k = a
    · simpa [lookupContribution, hk] using h (k, w) (List.mem_cons_self _ _)
    · simp [lookupContribution, hk]
      exact ih fun q hq => h q (List.mem_cons_of_mem _ hq)

theorem lookupContribution_eq_of_mem (p : Address × Int) :
    ∀ st : List (Address × Int), (storeKeys st).Nodup → p ∈ st →
      lookupContribution st p.1 = p.2 := by
  intro st
  induction st with
  | nil =>
    intro _ hp
    simp at hp
  | cons q rest ih =>
    obtain ⟨k, w⟩ := q
    intro hnd hp
    have hnd2 := List.nodup_cons.mp (show (k :: List.map Prod.fst rest).Nodup from hnd)
    rcases List.mem_cons.mp hp with hp | hp
    · rw [hp]
      simp [lookupContribution]
    · have hne : k ≠ p.1 := by
        intro he
        refine hnd2.1 ?_
        rw [he]
        exact List.mem_map_of_mem Prod.fst hp
      simp [lookupContribution, hne]
      exact ih hnd2.2 hp

theorem mem_setContribution_of_nodup (a : Address) (v : Int) (p : Address × Int) :
    ∀ st : List (Address × Int), (storeKeys st).Nodup →
      p ∈ setContribution st a v → p = (a, v) ∨ (p ∈ st ∧ p.1 ≠ a) := by
  intro st
  induction st with
  | nil =>
    intro _ hp
    left
    simpa [setContribution] using hp
  | cons q rest ih =>
    obtain ⟨k, w⟩ := q
    intro hnd hp
    have hnd2 := List.nodup_cons.mp (show (k :: List.map Prod.fst rest).Nodup from hnd)
    by_cases h : k = a
    · simp [setContribution, h] at hp
      rcases hp with hp | hp
      · left; simp [hp]
      · right
        refine ⟨List.mem_cons_of_mem _ hp, ?_⟩
        intro he
        refine hnd2.1 ?_
        rw [h, ← he]
        exact List.mem_map_of_mem Prod.fst hp
    · simp [setContribution, h] at hp
      rcases hp with hp | hp
      · right
        refine ⟨by simp [hp], ?_⟩
        rw [hp]
        exact h
      · rcases ih hnd2.2 hp with hm | hm
        · left; exact hm
        · right; exact ⟨List.mem_cons_of_mem _ hm.1, hm.2⟩

theorem storeKeys_setContribution_of_mem (a : Address) (v : Int) :
    ∀ st : List (Address × Int), a ∈ storeKeys st →
      storeKeys (setContribution st a v) = storeKeys st := by
  intro st
  induction st with
  | nil =>
    intro ha
    simp at ha
  | cons q rest ih =>
    obtain ⟨k, w⟩ := q
    intro ha
    have ha2 : a ∈ k :: List.map Prod.fst rest := ha
    by_cases h : k = a
    · simp [setContribution, h]
    · rcases List.mem_cons.mp ha2 with h1 | h1
      · exact absurd h1.symm h
      · simp [setContribution, h, ih h1]

theorem storeKeys_setContribution_of_not_mem (a : Address) (v : Int) :
    ∀ st : List (Address × Int), a ∉ storeKeys st →
      storeKeys (setContribution st a v) = storeKeys st ++ [a] := by
  intro st
  induction st with
  | nil =>
    intro _
    simp [setContribution]
  | cons q rest ih =>
    obtain ⟨k, w⟩ := q
    intro ha
    have ha2 : a ∉ k :: List.map Prod.fst rest := ha
    have h : k ≠ a := by
      intro he
      exact ha2 (by rw [← he]; exact List.mem_cons_self _ _)
    have hrest : a ∉ storeKeys rest := fun hm => ha2 (List.mem_cons_of_mem _ hm)
    simp [setContribution, h, ih hrest]

theorem posSum_eq_sumValues :
    ∀ st : List (Address × Int), (∀ p ∈ st, 0 ≤ p.2) → posSum st = sumValues st := by
  intro st
  induction st with
  | nil =>
    intro _
    simp [posSum, sumValues]
  | cons p rest ih =>
    obtain ⟨k, w⟩ := p
    intro h
    have ihr := ih fun q hq => h q (List.mem_cons_of_mem _ hq)
    have hw : 0 ≤ w := by simpa using h (k, w) (List.mem_cons_self _ _)
    by_cases hp : 0 < w
    · simp [posSum, sumValues, hp] at ihr ⊢
      omega
    · have hz : w = 0 := by omega
      simp [posSum, sumValues, hp, hz] at ihr ⊢
      omega

theorem nodup_append_singleton {α : Type} (l : List α) (a : α)
    (h : l.Nodup) (ha : a ∉ l) : (l ++ [a]).Nodup := by
  rw [List.nodup_append]
  refine ⟨h, List.nodup_singleton a, ?_⟩
  intro x hx hxa
  rw [List.mem_singleton] at hxa
  exact ha (hxa ▸ hx)

theorem cancelSweep_keys_eq :
    ∀ (L : List Address) (st : List (Address × Int)),
      storeKeys (cancelSweep L st).1 = storeKeys st := by
  intro L
  induction L with
  | nil =>
    intro st
    simp [cancelSweep]
  | cons c rest ih =>
    intro st
    by_cases h : 0 < lookupContribution st c
    · have hc : c ∈ storeKeys st :=
        List.mem_map_of_mem Prod.fst (lookupContribution_mem st c (by omega))
      simp only [cancelSweep, h, if_true]
      rw [ih (setContribution st c 0), storeKeys_setContribution_of_mem c 0 st hc]
    · simp only [cancelSweep, h, if_false]
      exact ih st

theorem cancelSweep_values_nonneg :
    ∀ (L : List Address) (st : List (Address × Int)), (∀ p ∈ st, 0 ≤ p.2) →
      ∀ p ∈ (cancelSweep L st).1, 0 ≤ p.2 := by
  intro L
  induction L with
  | nil =>
    intro st h
    simpa [cancelSweep] using h
  | cons c rest ih =>
    intro st h
    by_cases hc : 0 < lookupContribution st c
    · have h2 : ∀ p ∈ setContribution st c 0, 0 ≤ p.2 := by
        intro p hp
        rcases mem_setContribution c 0 p st hp with hm | hm
        · exact h p hm
        · simp [hm]
      intro p hp
      refine ih (setContribution st c 0) h2 p ?_
      simpa [cancelSweep, hc] using hp
    · intro p hp
      refine ih st h p ?_
      simpa [cancelSweep, hc] using hp

theorem cancelSweep_preserves_nonpos_at (c : Address) :
    ∀ (L : List Address) (st : List (Address × Int)),
      (∀ p ∈ st, p.1 = c → p.2 ≤ 0) →
      ∀ p ∈ (cancelSweep L st).1, p.1 = c → p.2 ≤ 0 := by
  intro L
  induction L with
  | nil =>
    intro st h
    simpa [cancelSweep] using h
  | cons d rest ih =>
    intro st h
    by_cases hd : 0 < lookupContribution st d
    · have h2 : ∀ p ∈ setContribution st d 0, p.1 = c → p.2 ≤ 0 := by
        intro p hp hpc
        rcases mem_setContribution d 0 p st hp with hm | hm
        · exact h p hm hpc
        · simp [hm]
      intro p hp hpc
      refine ih (setContribution st d 0) h2 p ?_ hpc
      simpa [cancelSweep, hd] using hp
    · intro p hp hpc
      refine ih st h p ?_ hpc
      simpa [cancelSweep, hd] using hp

theorem cancelSweep_nonpos_of_mem :
    ∀ (L : List Address) (st : List (Address × Int)), (storeKeys st).Nodup →
      ∀ p ∈ (cancelSweep L st).1, p.1 ∈ L → p.2 ≤ 0 := by
  intro L
  induction L with
  | nil =>
    intro st _ p _ hpl
    simp at hpl
  | cons c rest ih =>
    intro st hnd p hp hpl
    by_cases hc : 0 < lookupContribution st c
    · have hmem : p ∈ (cancelSweep rest (setContribution st c 0)).1 := by
        simpa [cancelSweep, hc] using hp
      have hckeys : c ∈ storeKeys st :=
        List.mem_map_of_mem Prod.fst (lookupContribution_mem st c (by omega))
      have hnd2 : (storeKeys (setContribution st c 0)).Nodup := by
        rw [storeKeys_setContribution_of_mem c 0 st hckeys]
        exact hnd
      rcases List.mem_cons.mp hpl with hpc | hpr
      · have h2 : ∀ q ∈ setContribution st c 0, q.1 = c → q.2 ≤ 0 := by
          intro q hq hqc
          rcases mem_setContribution_of_nodup c 0 q st hnd hq with hm | hm
          · simp [hm]
          · exact absurd hqc hm.2
        exact cancelSweep_preserves_nonpos_at c rest (setContribution st c 0) h2 p hmem hpc
      · exact ih (setContribution st c 0) hnd2 p hmem hpr
    · have hmem : p ∈ (cancelSweep rest st).1 := by
        simpa [cancelSweep, hc] using hp
      rcases List.mem_cons.mp hpl with hpc | hpr
      · have h2 : ∀ q ∈ st, q.1 = c → q.2 ≤ 0 := by
          intro q hq hqc
          have hl := lookupContribution_eq_of_mem q st hnd hq
          rw [hqc] at hl
          omega
        exact cancelSweep_preserves_nonpos_at c rest st h2 p hmem hpc
      · exact ih st hnd p hmem hpr

theorem sumValues_eq_zero :
    ∀ st : List (Address × Int), (∀ p ∈ st, p.2 = 0) → sumValues st = 0 := by
  intro st
  induction st with
  | nil =>
    intro _
    simp [sumValues]
  | cons p rest ih =>
    obtain ⟨k, w⟩ := p
    intro h
    have ihr := ih fun q hq => h q (List.mem_cons_of_mem _ hq)
    have hw : w = 0 := by simpa using h (k, w) (List.mem_cons_self _ _)
    simp [sumValues, hw] at ihr ⊢
    exact ihr

theorem initCampaign_ok (auths : List Address) (creator token : Address)
    (goal : Int) (deadline : Nat) (minc : Int) (cfg : Option PlatformConfig)
    (s : Campaign)
    (h : initCampaign none auths creator token goal deadline minc cfg = .ok s) :
    creator ∈ auths ∧ (∀ c, cfg = some c → c.fee_bps ≤ 10000) ∧
    s = { creator := creator, token := token, goal := goal, deadline := deadline,
          min_contribution := minc, total_raised := 0, status := Status.Active,
          contributions := [], contributors := [], platform_config := cfg,
          nft_contract := none, roadmap := [] } := by
  by_cases h1 : creator ∈ auths
  · cases cfg with
    | none =>
      simp [initCampaign, h1] at h
      exact ⟨h1, by simp, h.symm⟩
    | some c =>
      by_cases h2 : 10000 < c.fee_bps
      · simp [initCampaign, h1, h2] at h
      · simp [initCampaign, h1, h2] at h
        refine ⟨h1, ?_, h.symm⟩
        intro d hd
        cases hd
        omega
  · simp [initCampaign, h1] at h

theorem contribute_ok (s : Campaign) (auths : List Address) (now : Nat)
    (c : Address) (amt : Int) (s2 : Campaign) (trs : List Transfer)
    (h : contribute s auths now c amt = .ok (s2, trs)) :
    c ∈ auths ∧ s.status = Status.Active ∧ s.min_contribution ≤ amt ∧
    now ≤ s.deadline ∧ 0 ≤ amt ∧
    s2 = { s with
      contributions := setContribution s.contributions c
        (lookupContribution s.contributions c + amt),
      total_raised := s.total_raised + amt,
      contributors :=
        if c ∈ s.contributors then s.contributors else s.contributors ++ [c] } ∧
    trs = [⟨c, currentContractAddress, amt⟩] := by
  by_cases h1 : c ∈ auths
  · by_cases h2 : s.status = Status.Active
    · by_cases h3 : amt < s.min_contribution
      · simp [contribute, h1, h2, h3] at h
      · by_cases h4 : s.deadline < now
        · simp [contribute, h1, h2, h3, h4] at h
        · by_cases h5 : amt < 0
          · simp [contribute, tokenTransfer, h1, h2, h3, h4, h5] at h
          · simp [contribute, tokenTransfer, h1, h2, h3, h4, h5] at h
            refine ⟨h1, h2, by omega, by omega, by omega, ?_, h.2.symm⟩
            rw [← h.1, h2]
    · simp [contribute, h1, h2] at h
  · simp [contribute, h1] at h

theorem withdraw_ok (s : Campaign) (auths : List Address) (now : Nat)
    (s2 : Campaign) (trs : List Transfer)
    (h : withdraw s auths now = .ok (s2, trs)) :
    s.status = Status.Active ∧ s.creator ∈ auths ∧ s.deadline < now ∧
    s.goal ≤ s.total_raised ∧
    s2 = { s with total_raised := 0, status := Status.Successful } ∧
    (s.platform_config = none →
      trs = [⟨currentContractAddress, s.creator, s.total_raised⟩]) ∧
    (∀ cfg, s.platform_config = some cfg →
      trs = [⟨currentContractAddress, cfg.address,
               Int.tdiv (s.total_raised * (cfg.fee_bps : Int)) 10000⟩,
             ⟨currentContractAddress, s.creator,
               s.total_raised - Int.tdiv (s.total_raised * (cfg.fee_bps : Int)) 10000⟩]) := by
  by_cases h1 : s.status = Status.Active
  · by_cases h2 : s.creator ∈ auths
    · by_cases h3 : now ≤ s.deadline
      · simp [withdraw, h1, h2, h3] at h
      · by_cases h4 : s.total_raised < s.goal
        · simp [withdraw, h1, h2, h3, h4] at h
        · cases hcfg : s.platform_config with
          | none =>
            by_cases h5 : s.total_raised < 0
            · simp [withdraw, tokenTransfer, h1, h2, h3, h4, h5, hcfg] at h
            · simp [withdraw, tokenTransfer, h1, h2, h3, h4, h5, hcfg] at h
              refine ⟨h1, h2, by omega, by omega, h.1.symm, fun _ => h.2.symm, ?_⟩
              intro cfg hc
              cases hc
          | some cfg =>
            by_cases h5 : Int.tdiv (s.total_raised * (cfg.fee_bps : Int)) 10000 < 0
            · simp [withdraw, tokenTransfer, h1, h2, h3, h4, h5, hcfg] at h
            · by_cases h6 :
                s.total_raised - Int.tdiv (s.total_raised * (cfg.fee_bps : Int)) 10000 < 0
              · simp [withdraw, tokenTransfer, h1, h2, h3, h4, h5, h6, hcfg] at h
              · simp [withdraw, tokenTransfer, h1, h2, h3, h4, h5, h6, hcfg] at h
                refine ⟨h1, h2, by omega, by omega, h.1.symm, ?_, ?_⟩
                · intro hc
                  cases hc
                · intro d hd
                  cases hd
                  exact h.2.symm
    · simp [withdraw, h1, h2] at h
  · simp [withdraw, h1] at h

theorem refund_single_ok (s : Campaign) (auths : List Address) (now : Nat)
    (c : Address) (s2 : Campaign) (trs : List Transfer)
    (h : refund_single s auths now c = .ok (s2, trs)) :
    c ∈ auths ∧ s.status = Status.Active ∧ s.deadline < now ∧
    s.total_raised < s.goal ∧
    ((lookupContribution s.contributions c = 0 ∧ s2 = s ∧ trs = []) ∨
     (0 < lookupContribution s.contributions c ∧
      s2 = { s with
        contributions := setContribution s.contributions c 0,
        total_raised := s.total_raised - lookupContribution s.contributions c,
        status :=
          if s.total_raised - lookupContribution s.contributions c = 0
          then Status.Refunded else s.status } ∧
      trs = [⟨currentContractAddress, c, lookupContribution s.contributions c⟩])) := by
  by_cases h1 : c ∈ auths
  · by_cases h2 : s.status = Status.Active
    · by_cases h3 : now ≤ s.deadline
      · simp [refund_single, h1, h2, h3] at h
      · by_cases h4 : s.goal ≤ s.total_raised
        · simp [refund_single, h1, h2, h3, h4] at h
        · by_cases h5 : lookupContribution s.contributions c = 0
          · simp [refund_single, h1, h2, h3, h4, h5] at h
            obtain ⟨hs, ht⟩ := h
            subst hs
            subst ht
            exact ⟨h1, h2, by omega, by omega, Or.inl ⟨h5, rfl, rfl⟩⟩
          · by_cases h6 : lookupContribution s.contributions c < 0
            · simp [refund_single, tokenTransfer, h1, h2, h3, h4, h5, h6] at h
            · simp [refund_single, tokenTransfer, h1, h2, h3, h4, h5, h6] at h
              refine ⟨h1, h2, by omega, by omega,
                Or.inr ⟨by omega, ?_, h.2.symm⟩⟩
              rw [← h.1, h2]
    · simp [refund_single, h1, h2] at h
  · simp [refund_single, h1] at h

theorem cancel_ok (s : Campaign) (auths : List Address)
    (s2 : Campaign) (trs : List Transfer)
    (h : cancel s auths = .ok (s2, trs)) :
    s.status = Status.Active ∧ s.creator ∈ auths ∧
    s2 = { s with
      contributions := (cancelSweep s.contributors s.contributions).1,
      total_raised := 0, status := Status.Cancelled } ∧
    trs = (cancelSweep s.contributors s.contributions).2 := by
  by_cases h1 : s.status = Status.Active
  · by_cases h2 : s.creator ∈ auths
    · simp [cancel, h1, h2] at h
      obtain ⟨hs, ht⟩ := h
      subst hs
      subst ht
      exact ⟨h1, h2, rfl, rfl⟩
    · simp [cancel, h1, h2] at h
  · simp [cancel, h1] at h

theorem set_nft_contract_ok (s : Campaign) (auths : List Address)
    (creator nft : Address) (s2 : Campaign) (trs : List Transfer)
    (h : set_nft_contract s auths creator nft = .ok (s2, trs)) :
    creator = s.creator ∧ creator ∈ auths ∧
    s2 = { s with nft_contract := some nft } ∧ trs = [] := by
  by_cases h1 : creator = s.creator
  · subst h1
    by_cases h2 : s.creator ∈ auths
    · simp [set_nft_contract, h2] at h
      obtain ⟨hs, ht⟩ := h
      subst hs
      subst ht
      exact ⟨rfl, h2, rfl, rfl⟩
    · simp [set_nft_contract, h2] at h
  · simp [set_nft_contract, h1] at h

theorem add_roadmap_item_ok (s : Campaign) (auths : List Address) (now : Nat)
    (date : Nat) (descr : String) (s2 : Campaign) (trs : List Transfer)
    (h : add_roadmap_item s auths now date descr = .ok (s2, trs)) :
    s.creator ∈ auths ∧ now < date ∧ descr ≠ "" ∧
    s2 = { s with roadmap := s.roadmap ++ [⟨date, descr⟩] } ∧ trs = [] := by
  by_cases h1 : s.creator ∈ auths
  · by_cases h2 : date ≤ now
    · simp [add_roadmap_item, h1, h2] at h
    · by_cases h3 : descr = ""
      · simp [add_roadmap_item, h1, h2, h3] at h
      · simp [add_roadmap_item, h1, h2, h3] at h
        obtain ⟨hs, ht⟩ := h
        subst hs
        subst ht
        exact ⟨h1, by omega, h3, rfl, rfl⟩
  · simp [add_roadmap_item, h1] at h

theorem initCampaign_Inv (auths : List Address) (creator token : Address)
    (goal : Int) (deadline : Nat) (minc : Int) (cfg : Option PlatformConfig)
    (s : Campaign)
    (h : initCampaign none auths creator token goal deadline minc cfg = .ok s) :
    Inv s := by
  obtain ⟨-, hcfg, hs⟩ := initCampaign_ok auths creator token goal deadline minc cfg s h
  subst hs
  exact ⟨by simp, by simp, by simp, by simp, hcfg, by intro _; simp [sumValues]⟩

theorem contribute_Inv (s : Campaign) (auths : List Address) (now : Nat)
    (c : Address) (amt : Int) (s2 : Campaign) (trs : List Transfer)
    (hInv : Inv s) (h : contribute s auths now c amt = .ok (s2, trs)) : Inv s2 := by
  obtain ⟨h1, h2, h3, h4, h5, hs, ht⟩ := contribute_ok s auths now c amt s2 trs h
  obtain ⟨iV, iK, iC, iL, iF, iT⟩ := hInv
  subst hs
  refine ⟨?_, ?_, ?_, ?_, ?_, ?_⟩
  · intro p hp
    rcases mem_setContribution c (lookupContribution s.contributions c + amt) p
        s.contributions hp with hm | hm
    · exact iV p hm
    · have hl := lookupContribution_nonneg s.contributions c iV
      simp [hm]
      omega
  · show (storeKeys (setContribution s.contributions c
      (lookupContribution s.contributions c + amt))).Nodup
    by_cases hc : c ∈ storeKeys s.contributions
    · rw [storeKeys_setContribution_of_mem c _ s.contributions hc]
      exact iK
    · rw [storeKeys_setContribution_of_not_mem c _ s.contributions hc]
      exact nodup_append_singleton _ c iK hc
  · intro p hp
    show p.1 ∈ (if c ∈ s.contributors then s.contributors else s.contributors ++ [c])
    rcases mem_setContribution c (lookupContribution s.contributions c + amt) p
        s.contributions hp with hm | hm
    · have hpc := iC p hm
      by_cases hcl : c ∈ s.contributors <;> simp [hcl, hpc]
    · rw [hm]
      by_cases hcl : c ∈ s.contributors <;> simp [hcl]
  · show (if c ∈ s.contributors then s.contributors else s.contributors ++ [c]).Nodup
    by_cases hcl : c ∈ s.contributors
    · simpa [hcl] using iL
    · simp only [hcl, if_false]
      exact nodup_append_singleton _ c iL hcl
  · exact iF
  · intro _
    show s.total_raised + amt = sumValues (setContribution s.contributions c
      (lookupContribution s.contributions c + amt))
    rw [sumValues_setContribution]
    have ht2 := iT (by rw [h2]; intro hx; cases hx)
    omega

theorem withdraw_Inv (s : Campaign) (auths : List Address) (now : Nat)
    (s2 : Campaign) (trs : List Transfer)
    (hInv : Inv s) (h : withdraw s auths now = .ok (s2, trs)) : Inv s2 := by
  obtain ⟨h1, h2, h3, h4, hs, -, -⟩ := withdraw_ok s auths now s2 trs h
  obtain ⟨iV, iK, iC, iL, iF, iT⟩ := hInv
  subst hs
  refine ⟨iV, iK, iC, iL, iF, ?_⟩
  intro hstat
  exact absurd rfl hstat

theorem refund_single_Inv (s : Campaign) (auths : List Address) (now : Nat)
    (c : Address) (s2 : Campaign) (trs : List Transfer)
    (hInv : Inv s) (h : refund_single s auths now c = .ok (s2, trs)) : Inv s2 := by
  obtain ⟨h1, h2, h3, h4, hcase⟩ := refund_single_ok s auths now c s2 trs h
  obtain ⟨iV, iK, iC, iL, iF, iT⟩ := hInv
  rcases hcase with ⟨-, hs, -⟩ | ⟨hpos, hs, -⟩
  · subst hs
    exact ⟨iV, iK, iC, iL, iF, iT⟩
  · subst hs
    have hmem : (c, lookupContribution s.contributions c) ∈ s.contributions :=
      lookupContribution_mem s.contributions c (by omega)
    have hckeys : c ∈ storeKeys s.contributions :=
      List.mem_map_of_mem Prod.fst hmem
    refine ⟨?_, ?_, ?_, iL, iF, ?_⟩
    · intro p hp
      rcases mem_setContribution c 0 p s.contributions hp with hm | hm
      · exact iV p hm
      · simp [hm]
    · show (storeKeys (setContribution s.contributions c 0)).Nodup
      rw [storeKeys_setContribution_of_mem c 0 s.contributions hckeys]
      exact iK
    · intro p hp
      rcases mem_setContribution c 0 p s.contributions hp with hm | hm
      · exact iC p hm
      · rw [hm]
        exact iC (c, lookupContribution s.contributions c) hmem
    · intro _
      show s.total_raised - lookupContribution s.contributions c =
        sumValues (setContribution s.contributions c 0)
      rw [sumValues_setContribution]
      have ht2 := iT (by rw [h2]; intro hx; cases hx)
      omega

theorem cancel_Inv (s : Campaign) (auths : List Address)
    (s2 : Campaign) (trs : List Transfer)
    (hInv : Inv s) (h : cancel s auths = .ok (s2, trs)) : Inv s2 := by
  obtain ⟨h1, h2, hs, -⟩ := cancel_ok s auths s2 trs h
  obtain ⟨iV, iK, iC, iL, iF, iT⟩ := hInv
  subst hs
  have hkeys := cancelSweep_keys_eq s.contributors s.contributions
  have hmemc : ∀ p ∈ (cancelSweep s.contributors s.contributions).1,
      p.1 ∈ s.contributors := by
    intro p hp
    have hpk : p.1 ∈ storeKeys s.contributions := by
      rw [← hkeys]
      exact List.mem_map_of_mem Prod.fst hp
    rcases List.mem_map.mp hpk with ⟨q, hq, hq1⟩
    rw [← hq1]
    exact iC q hq
  refine ⟨cancelSweep_values_nonneg s.contributors s.contributions iV, ?_, hmemc,
    iL, iF, ?_⟩
  · show (storeKeys (cancelSweep s.contributors s.contributions).1).Nodup
    rw [hkeys]
    exact iK
  · intro _
    show (0 : Int) = sumValues (cancelSweep s.contributors s.contributions).1
    refine (sumValues_eq_zero _ ?_).symm
    intro p hp
    have hge := cancelSweep_values_nonneg s.contributors s.contributions iV p hp
    have hle := cancelSweep_nonpos_of_mem s.contributors s.contributions iK p hp
      (hmemc p hp)
    omega

theorem set_nft_contract_Inv (s : Campaign) (auths : List Address)
    (creator nft : Address) (s2 : Campaign) (trs : List Transfer)
    (hInv : Inv s) (h : set_nft_contract s auths creator nft = .ok (s2, trs)) :
    Inv s2 := by
  obtain ⟨-, -, hs, -⟩ := set_nft_contract_ok s auths creator nft s2 trs h
  obtain ⟨iV, iK, iC, iL, iF, iT⟩ := hInv
  subst hs
  exact ⟨iV, iK, iC, iL, iF, iT⟩

theorem add_roadmap_item_Inv (s : Campaign) (auths : List Address) (now : Nat)
    (date : Nat) (descr : String) (s2 : Campaign) (trs : List Transfer)
    (hInv : Inv s) (h : add_roadmap_item s auths now date descr = .ok (s2, trs)) :
    Inv s2 := by
  obtain ⟨-, -, -, hs, -⟩ := add_roadmap_item_ok s auths now date descr s2 trs h
  obtain ⟨iV, iK, iC, iL, iF, iT⟩ := hInv
  subst hs
  exact ⟨iV, iK, iC, iL, iF, iT⟩

theorem stepOp_Inv (op : Op) (s s2 : Campaign) (trs : List Transfer)
    (hInv : Inv s) (h : stepOp op s = .ok (s2, trs)) : Inv s2 := by
  cases op with
  | initOp auths creator token goal deadline minc cfg =>
    simp [stepOp, initCampaign] at h
  | contributeOp auths now c amt =>
    exact contribute_Inv s auths now c amt s2 trs hInv (by simpa [stepOp] using h)
  | withdrawOp auths now =>
    exact withdraw_Inv s auths now s2 trs hInv (by simpa [stepOp] using h)
  | refundSingleOp auths now c =>
    exact refund_single_Inv s auths now c s2 trs hInv (by simpa [stepOp] using h)
  | cancelOp auths =>
    exact cancel_Inv s auths s2 trs hInv (by simpa [stepOp] using h)
  | setNftContractOp auths creator nft =>
    exact set_nft_contract_Inv s auths creator nft s2 trs hInv (by simpa [stepOp] using h)
  | addRoadmapItemOp auths now date descr =>
    exact add_roadmap_item_Inv s auths now date descr s2 trs hInv (by simpa [stepOp] using h)

theorem applyOp_Inv (op : Op) (s : Campaign) (hInv : Inv s) : Inv (applyOp op s) := by
  cases hstep : stepOp op s with
  | error a =>
    simpa [applyOp, hstep] using hInv
  | ok pair =>
    obtain ⟨s2, trs⟩ := pair
    have h2 := stepOp_Inv op s s2 trs hInv hstep
    simpa [applyOp, hstep] using h2

theorem reachable_Inv (s : Campaign) (h : Reachable s) : Inv s := by
  induction h with
  | boot auths creator token goal deadline minc cfg s h =>
    exact initCampaign_Inv auths creator token goal deadline minc cfg s h
  | next s op h ih =>
    exact applyOp_Inv op s ih

theorem sumValues_nonneg :
    ∀ st : List (Address × Int), (∀ p ∈ st, 0 ≤ p.2) → 0 ≤ sumValues st := by
  intro st
  induction st with
  | nil =>
    intro _
    simp [sumValues]
  | cons p rest ih =>
    obtain ⟨k, w⟩ := p
    intro h
    have ihr := ih fun q hq => h q (List.mem_cons_of_mem _ hq)
    have hw : 0 ≤ w := by simpa using h (k, w) (List.mem_cons_self _ _)
    simp [sumValues] at ihr ⊢
    omega

theorem fee_bounds (T : Int) (bps : Nat) (hT : 0 ≤ T) (hbps : bps ≤ 10000) :
    0 ≤ Int.tdiv (T * (bps : Int)) 10000 ∧
    Int.tdiv (T * (bps : Int)) 10000 ≤ T := by
  have hprod : 0 ≤ T * (bps : Int) := mul_nonneg hT (by positivity)
  have htd : Int.tdiv (T * (bps : Int)) 10000 = T * (bps : Int) / 10000 :=
    Int.tdiv_eq_ediv hprod (by norm_num)
  constructor
  · rw [htd]
    exact Int.ediv_nonneg hprod (by norm_num)
  · rw [htd]
    calc T * (bps : Int) / 10000 ≤ T * 10000 / 10000 := by
          apply Int.ediv_le_ediv (by norm_num)
          exact mul_le_mul_of_nonneg_left (by exact_mod_cast hbps) hT
      _ = T := Int.mul_ediv_cancel T (by norm_num)

theorem stepOp_preserves_goal (op : Op) (s s2 : Campaign) (trs : List Transfer)
    (h : stepOp op s = .ok (s2, trs)) : s2.goal = s.goal := by
  cases op with
  | initOp auths creator token goal deadline minc cfg =>
    simp [stepOp, initCampaign] at h
  | contributeOp auths now c amt =>
    obtain ⟨-, -, -, -, -, hs, -⟩ :=
      contribute_ok s auths now c amt s2 trs (by simpa [stepOp] using h)
    subst hs
    rfl
  | withdrawOp auths now =>
    obtain ⟨-, -, -, -, hs, -, -⟩ :=
      withdraw_ok s auths now s2 trs (by simpa [stepOp] using h)
    subst hs
    rfl
  | refundSingleOp auths now c =>
    obtain ⟨-, -, -, -, hcase⟩ :=
      refund_single_ok s auths now c s2 trs (by simpa [stepOp] using h)
    rcases hcase with ⟨-, hs, -⟩ | ⟨-, hs, -⟩ <;> subst hs <;> rfl
  | cancelOp auths =>
    obtain ⟨-, -, hs, -⟩ := cancel_ok s auths s2 trs (by simpa [stepOp] using h)
    subst hs
    rfl
  | setNftContractOp auths creator nft =>
    obtain ⟨-, -, hs, -⟩ :=
      set_nft_contract_ok s auths creator nft s2 trs (by simpa [stepOp] using h)
    subst hs
    rfl
  | addRoadmapItemOp auths now date descr =>
    obtain ⟨-, -, -, hs, -⟩ :=
      add_roadmap_item_ok s auths now date descr s2 trs (by simpa [stepOp] using h)
    subst hs
    rfl

theorem stepOp_status_change (op : Op) (s s2 : Campaign) (trs : List Transfer)
    (h : stepOp op s = .ok (s2, trs)) (hne : s2.status ≠ s.status) :
    s.status = Status.Active ∧
    (s2.status = Status.Successful ∨ s2.status = Status.Refunded ∨
     s2.status = Status.Cancelled) := by
  cases op with
  | initOp auths creator token goal deadline minc cfg =>
    simp [stepOp, initCampaign] at h
  | contributeOp auths now c amt =>
    obtain ⟨-, -, -, -, -, hs, -⟩ :=
      contribute_ok s auths now c amt s2 trs (by simpa [stepOp] using h)
    subst hs
    exact absurd rfl hne
  | withdrawOp auths now =>
    obtain ⟨h1, -, -, -, hs, -, -⟩ :=
      withdraw_ok s auths now s2 trs (by simpa [stepOp] using h)
    subst hs
    exact ⟨h1, Or.inl rfl⟩
  | refundSingleOp auths now c =>
    obtain ⟨-, h2, -, -, hcase⟩ :=
      refund_single_ok s auths now c s2 trs (by simpa [stepOp] using h)
    rcases hcase with ⟨-, hs, -⟩ | ⟨-, hs, -⟩
    · subst hs
      exact absurd rfl hne
    · subst hs
      by_cases hz : s.total_raised - lookupContribution s.contributions c = 0
      · refine ⟨h2, Or.inr (Or.inl ?_)⟩
        show (if s.total_raised - lookupContribution s.contributions c = 0
          then Status.Refunded else s.status) = Status.Refunded
        simp [hz]
      · exfalso
        apply hne
        show (if s.total_raised - lookupContribution s.contributions c = 0
          then Status.Refunded else s.status) = s.status
        simp [hz]
  | cancelOp auths =>
    obtain ⟨h1, -, hs, -⟩ := cancel_ok s auths s2 trs (by simpa [stepOp] using h)
    subst hs
    exact ⟨h1, Or.inr (Or.inr rfl)⟩
  | setNftContractOp auths creator nft =>
    obtain ⟨-, -, hs, -⟩ :=
      set_nft_contract_ok s auths creator nft s2 trs (by simpa [stepOp] using h)
    subst hs
    exact absurd rfl hne
  | addRoadmapItemOp auths now date descr =>
    obtain ⟨-, -, -, hs, -⟩ :=
      add_roadmap_item_ok s auths now date descr s2 trs (by simpa [stepOp] using h)
    subst hs
    exact absurd rfl hne

theorem applyOp_status_change (op : Op) (s : Campaign)
    (hne : (applyOp op s).status ≠ s.status) :
    s.status = Status.Active ∧
    ((applyOp op s).status = Status.Successful ∨
     (applyOp op s).status = Status.Refunded ∨
     (applyOp op s).status = Status.Cancelled) := by
  cases hstep : stepOp op s with
  | error a =>
    rw [show applyOp op s = s by simp [applyOp, hstep]] at hne
    exact absurd rfl hne
  | ok pair =>
    obtain ⟨s2, trs⟩ := pair
    rw [show applyOp op s = s2 by simp [applyOp, hstep]] at hne ⊢
    exact stepOp_status_change op s s2 trs hstep hne

theorem applyOp_preserves_goal (op : Op) (s : Campaign) :
    (applyOp op s).goal = s.goal := by
  cases hstep : stepOp op s with
  | error a =>
    simp [applyOp, hstep]
  | ok pair =>
    obtain ⟨s2, trs⟩ := pair
    rw [show applyOp op s = s2 by simp [applyOp, hstep]]
    exact stepOp_preserves_goal op s s2 trs hstep

theorem bootCampaign_reachable : Reachable bootCampaign :=
  Reachable.boot [1] 1 2 1000000 10 1000 none bootCampaign rfl

theorem feeBootCampaign_reachable : Reachable feeBootCampaign :=
  Reachable.boot [1] 1 2 1000000 10 1000 (some ⟨9, 250⟩) feeBootCampaign rfl

theorem oneContribState_reachable : Reachable oneContribState :=
  Reachable.next _ _ bootCampaign_reachable

theorem twoContribState_reachable : Reachable twoContribState :=
  Reachable.next _ _ oneContribState_reachable

theorem succState_reachable : Reachable succState :=
  Reachable.next _ _ twoContribState_reachable

theorem refundedState_reachable : Reachable refundedState :=
  Reachable.next _ _ oneContribState_reachable

theorem cancelledState_reachable : Reachable cancelledState :=
  Reachable.next _ _ oneContribState_reachable

theorem feeContribState_reachable : Reachable feeContribState :=
  Reachable.next _ _ feeBootCampaign_reachable

theorem dupContribState_reachable : Reachable dupContribState :=
  Reachable.next _ _ (Reachable.next _ _ bootCampaign_reachable)

/-- C1 as stated is false: a successful withdraw zeroes total_raised but does
not touch the ledger cells, so in the reachable post-payout state the stored
total is 0 while the positive ledger entries sum to 1000000. -/
theorem c1_counterexample :
    Reachable succState ∧
    succState.total_raised ≠ posSum succState.contributions :=
  ⟨succState_reachable, by decide⟩

/-- C1 (amended): in every reachable state that is not the paid-out state
(status Successful, entered only by a successful withdraw), the stored
total_raised equals the sum of all per-contributor ledger entries with
positive amount. -/
theorem c1_total_matches_ledger (s : Campaign) (h : Reachable s)
    (hstat : s.status ≠ Status.Successful) :
    s.total_raised = posSum s.contributions := by
  obtain ⟨iV, -, -, -, -, iT⟩ := reachable_Inv s h
  rw [posSum_eq_sumValues s.contributions iV]
  exact iT hstat

/-- Witness for C1: the amended invariant evaluated on the reachable state
holding two live contributions. -/
theorem c1_witness :
    twoContribState.total_raised = posSum twoContribState.contributions :=
  c1_total_matches_ledger twoContribState twoContribState_reachable (by decide)

/-- C2: withdraw on an Active, reachable campaign with creator authorization
returns CampaignStillActive at or before the deadline; past the deadline with
the goal unmet it returns GoalNotReached; past the deadline with the goal met
it succeeds, zeroes total_raised, sets status Successful, issues transfers
out of the contract summing to the raised total, and any second withdraw
fails with the campaign-not-active abort. -/
theorem c2_withdraw_lifecycle (s : Campaign) (auths : List Address) (now : Nat)
    (hreach : Reachable s) (hactive : s.status = Status.Active)
    (hauth : s.creator ∈ auths) :
    (now ≤ s.deadline →
      withdraw s auths now = .error (.contractErr .CampaignStillActive)) ∧
    (s.deadline < now → s.total_raised < s.goal →
      withdraw s auths now = .error (.contractErr .GoalNotReached)) ∧
    (s.deadline < now → s.goal ≤ s.total_raised →
      ∃ s2 trs, withdraw s auths now = .ok (s2, trs) ∧
        s2.total_raised = 0 ∧ s2.status = Status.Successful ∧
        (trs.map Transfer.amount).sum = s.total_raised ∧
        (∀ t ∈ trs, t.sender = currentContractAddress) ∧
        (∀ auths2 now2,
          withdraw s2 auths2 now2 = .error (.fatal "campaign is not active"))) := by
  refine ⟨?_, ?_, ?_⟩
  · intro hle
    simp [withdraw, hactive, hauth, hle]
  · intro hgt hlt
    have hnle : ¬ now ≤ s.deadline := by omega
    simp [withdraw, hactive, hauth, hnle, hlt]
  · intro hgt hge
    obtain ⟨iV, -, -, -, iF, iT⟩ := reachable_Inv s hreach
    have hT : 0 ≤ s.total_raised := by
      rw [iT (by rw [hactive]; intro hx; cases hx)]
      exact sumValues_nonneg s.contributions iV
    have hnle : ¬ now ≤ s.deadline := by omega
    have hnlt : ¬ s.total_raised < s.goal := by omega
    cases hcfg : s.platform_config with
    | none =>
      have hT2 : ¬ s.total_raised < 0 := by omega
      refine ⟨{ s with total_raised := 0, status := Status.Successful },
        [⟨currentContractAddress, s.creator, s.total_raised⟩], ?_, rfl, rfl,
        by simp, ?_, ?_⟩
      · simp [withdraw, hactive, hauth, hnle, hnlt, hcfg, tokenTransfer, hT2]
      · intro t htr
        simp at htr
        simp [htr]
      · intro auths2 now2
        simp [withdraw]
    | some cfg =>
      obtain ⟨hfee0, hfeeT⟩ :=
        fee_bounds s.total_raised cfg.fee_bps hT (iF cfg hcfg)
      have h5 : ¬ Int.tdiv (s.total_raised * (cfg.fee_bps : Int)) 10000 < 0 := by
        omega
      have h6 : ¬ s.total_raised -
          Int.tdiv (s.total_raised * (cfg.fee_bps : Int)) 10000 < 0 := by
        omega
      refine ⟨{ s with total_raised := 0, status := Status.Successful },
        [⟨currentContractAddress, cfg.address,
           Int.tdiv (s.total_raised * (cfg.fee_bps : Int)) 10000⟩,
         ⟨currentContractAddress, s.creator,
           s.total_raised - Int.tdiv (s.total_raised * (cfg.fee_bps : Int)) 10000⟩],
        ?_, rfl, rfl, ?_, ?_, ?_⟩
      · simp [withdraw, hactive, hauth, hnle, hnlt, hcfg, tokenTransfer, h5, h6]
      · simp
      · intro t htr
        simp at htr
        rcases htr with htr | htr <;> simp [htr]
      · intro auths2 now2
        simp [withdraw]

/-- Witness for C2: the still-active branch on the reachable goal-met
campaign before its deadline. -/
theorem c2_witness :
    withdraw twoContribState [1] 5 = .error (.contractErr .CampaignStillActive) :=
  (c2_withdraw_lifecycle twoContribState [1] 5 twoContribState_reachable
    (by decide) (by decide)).1 (by decide)

/-- C3: every successful withdraw on a reachable campaign with a stored
platform config of f basis points sends the fee recipient exactly
floor(total * f / 10000) and the creator exactly the remainder, fee transfer
first, and the two amounts sum to the raised total; with no platform config
the creator receives the full total in a single transfer. -/
theorem c3_fee_split (s : Campaign) (auths : List Address) (now : Nat)
    (s2 : Campaign) (trs : List Transfer) (hreach : Reachable s)
    (h : withdraw s auths now = .ok (s2, trs)) :
    (∀ cfg, s.platform_config = some cfg →
      trs = [⟨currentContractAddress, cfg.address,
               s.total_raised * (cfg.fee_bps : Int) / 10000⟩,
             ⟨currentContractAddress, s.creator,
               s.total_raised - s.total_raised * (cfg.fee_bps : Int) / 10000⟩] ∧
      (trs.map Transfer.amount).sum = s.total_raised) ∧
    (s.platform_config = none →
      trs = [⟨currentContractAddress, s.creator, s.total_raised⟩]) := by
  obtain ⟨h1, -, -, -, -, hnone, hsome⟩ := withdraw_ok s auths now s2 trs h
  obtain ⟨iV, -, -, -, -, iT⟩ := reachable_Inv s hreach
  have hT : 0 ≤ s.total_raised := by
    rw [iT (by rw [h1]; intro hx; cases hx)]
    exact sumValues_nonneg s.contributions iV
  refine ⟨?_, hnone⟩
  intro cfg hcfg
  have htd : Int.tdiv (s.total_raised * (cfg.fee_bps : Int)) 10000 =
      s.total_raised * (cfg.fee_bps : Int) / 10000 :=
    Int.tdiv_eq_ediv (mul_nonneg hT (by positivity)) (by norm_num)
  have htr := hsome cfg hcfg
  rw [htd] at htr
  refine ⟨htr, ?_⟩
  rw [htr]
  simp

/-- Witness for C3: the fee split evaluated on the reachable fee-configured
campaign: 25000 to the fee recipient, 975000 to the creator. -/
theorem c3_witness :
    feeWithTrs = [⟨currentContractAddress, (9 : Address),
                    feeContribState.total_raised * ((250 : Nat) : Int) / 10000⟩,
                  ⟨currentContractAddress, feeContribState.creator,
                    feeContribState.total_raised -
                      feeContribState.total_raised * ((250 : Nat) : Int) / 10000⟩] ∧
    (feeWithTrs.map Transfer.amount).sum = feeContribState.total_raised :=
  (c3_fee_split feeContribState [1] 11 feeSuccState feeWithTrs
    feeContribState_reachable rfl).1 ⟨9, 250⟩ rfl

/-- C4: refund_single under contributor authorization on an Active, reachable
campaign: at or before the deadline it returns CampaignStillActive; past the
deadline with the goal met it returns GoalReached; past the deadline with the
goal unmet, a zero ledger cell gives a successful no-op with no transfer and
no state change, while a non-zero cell is transferred back in full, the cell
zeroed, total_raised decremented by that amount, and status becomes Refunded
exactly when the new total is zero, staying Active otherwise. -/
theorem c4_refund_single_spec (s : Campaign) (auths : List Address) (now : Nat)
    (c : Address) (hreach : Reachable s) (hauth : c ∈ auths)
    (hactive : s.status = Status.Active) :
    (now ≤ s.deadline →
      refund_single s auths now c = .error (.contractErr .CampaignStillActive)) ∧
    (s.deadline < now → s.goal ≤ s.total_raised →
      refund_single s auths now c = .error (.contractErr .GoalReached)) ∧
    (s.deadline < now → s.total_raised < s.goal →
      (lookupContribution s.contributions c = 0 →
        refund_single s auths now c = .ok (s, [])) ∧
      (lookupContribution s.contributions c ≠ 0 →
        ∃ s2, refund_single s auths now c =
            .ok (s2, [⟨currentContractAddress, c,
                       lookupContribution s.contributions c⟩]) ∧
          0 < lookupContribution s.contributions c ∧
          lookupContribution s2.contributions c = 0 ∧
          s2.total_raised = s.total_raised - lookupContribution s.contributions c ∧
          s2.contributors = s.contributors ∧
          s2.status = (if s2.total_raised = 0 then Status.Refunded
                       else Status.Active))) := by
  refine ⟨?_, ?_, ?_⟩
  · intro hle
    simp [refund_single, hauth, hactive, hle]
  · intro hgt hge
    have hnle : ¬ now ≤ s.deadline := by omega
    simp [refund_single, hauth, hactive, hnle, hge]
  · intro hgt hlt
    have hnle : ¬ now ≤ s.deadline := by omega
    have hnge : ¬ s.goal ≤ s.total_raised := by omega
    constructor
    · intro hzero
      simp [refund_single, hauth, hactive, hnle, hnge, hzero]
    · intro hnz
      obtain ⟨iV, -, -, -, -, -⟩ := reachable_Inv s hreach
      have hpos : 0 < lookupContribution s.contributions c := by
        have hge0 := lookupContribution_nonneg s.contributions c iV
        omega
      have hneg : ¬ lookupContribution s.contributions c < 0 := by omega
      refine ⟨{ s with
          contributions := setContribution s.contributions c 0,
          total_raised := s.total_raised - lookupContribution s.contributions c,
          status := if s.total_raised - lookupContribution s.contributions c = 0
                    then Status.Refunded else s.status },
        ?_, hpos, ?_, rfl, rfl, ?_⟩
      · simp [refund_single, hauth, hactive, hnle, hnge, hnz, tokenTransfer, hneg]
      · exact lookupContribution_setContribution_self s.contributions c 0
      · show (if s.total_raised - lookupContribution s.contributions c = 0
            then Status.Refunded else s.status) =
          (if s.total_raised - lookupContribution s.contributions c = 0
            then Status.Refunded else Status.Active)
        rw [hactive]

/-- Witness for C4: refund_single by an identity that never contributed is a
successful no-op with no transfer and no state change. -/
theorem c4_witness :
    refund_single oneContribState [7] 11 7 = .ok (oneContribState, []) :=
  ((c4_refund_single_spec oneContribState [7] 11 7 oneContribState_reachable
    (by decide) (by decide)).2.2 (by decide) (by decide)).1 (by decide)

/-- C5: contribute checks its preconditions in source order — contributor
authorization, status Active (fatal abort), minimum amount (fatal abort),
deadline (the one typed error, CampaignEnded) — and every failing call
commits no transfer and leaves the campaign state unchanged. -/
theorem c5_contribute_precondition_order (s : Campaign) (auths : List Address)
    (now : Nat) (c : Address) (amt : Int) :
    (c ∉ auths → contribute s auths now c amt = .error (.unauthorized c)) ∧
    (c ∈ auths → s.status ≠ Status.Active →
      contribute s auths now c amt = .error (.fatal "campaign is not active")) ∧
    (c ∈ auths → s.status = Status.Active → amt < s.min_contribution →
      contribute s auths now c amt = .error (.fatal "amount below minimum")) ∧
    (c ∈ auths → s.status = Status.Active → s.min_contribution ≤ amt →
      s.deadline < now →
      contribute s auths now c amt = .error (.contractErr .CampaignEnded)) ∧
    (∀ e, contribute s auths now c amt = .error e →
      applyOp (Op.contributeOp auths now c amt) s = s) := by
  refine ⟨?_, ?_, ?_, ?_, ?_⟩
  · intro h1
    simp [contribute, h1]
  · intro h1 h2
    simp [contribute, h1, h2]
  · intro h1 h2 h3
    simp [contribute, h1, h2, h3]
  · intro h1 h2 h3 h4
    have h5 : ¬ amt < s.min_contribution := by omega
    simp [contribute, h1, h2, h5, h4]
  · intro e he
    simp [applyOp, stepOp, he]

/-- Witness for C5: a contribution attempted after the deadline fails with
the typed CampaignEnded error. -/
theorem c5_witness :
    contribute bootCampaign [3] 11 3 600000 = .error (.contractErr .CampaignEnded) :=
  (c5_contribute_precondition_order bootCampaign [3] 11 3 600000).2.2.2.1
    (by decide) (by decide) (by decide) (by decide)

/-- C6: whenever the campaign record already exists, any further initialize
call returns AlreadyInitialized (the existence check is the first thing the
function does, before any write) and mutates nothing. -/
theorem c6_initialize_exactly_once (s : Campaign) (auths : List Address)
    (creator token : Address) (goal : Int) (deadline : Nat) (minc : Int)
    (cfg : Option PlatformConfig) :
    initCampaign (some s) auths creator token goal deadline minc cfg =
      .error (.contractErr .AlreadyInitialized) ∧
    applyOp (Op.initOp auths creator token goal deadline minc cfg) s = s := by
  exact ⟨rfl, rfl⟩

/-- C7: in every reachable state the contributor list is duplicate-free, and
a successful contribute adds the amount onto the previous ledger cell of
the contributor, leaving the list unchanged for a returning contributor and
appending the identity once for a first-time contributor. -/
theorem c7_contributor_once (s : Campaign) (h : Reachable s) :
    s.contributors.Nodup ∧
    (∀ auths now c amt s2 trs,
      contribute s auths now c amt = .ok (s2, trs) →
      lookupContribution s2.contributions c =
        lookupContribution s.contributions c + amt ∧
      (c ∈ s.contributors → s2.contributors = s.contributors) ∧
      (c ∉ s.contributors → s2.contributors = s.contributors ++ [c])) := by
  obtain ⟨-, -, -, iL, -, -⟩ := reachable_Inv s h
  refine ⟨iL, ?_⟩
  intro auths now c amt s2 trs hok
  obtain ⟨-, -, -, -, -, hs, -⟩ := contribute_ok s auths now c amt s2 trs hok
  subst hs
  refine ⟨?_, ?_, ?_⟩
  · exact lookupContribution_setContribution_self s.contributions c _
  · intro hc
    show (if c ∈ s.contributors then s.contributors
          else s.contributors ++ [c]) = s.contributors
    simp [hc]
  · intro hc
    show (if c ∈ s.contributors then s.contributors
          else s.contributors ++ [c]) = s.contributors ++ [c]
    simp [hc]

/-- Witness for C7: identity 3 contributes 300000 twice; the ledger cell
accumulates to 600000 while the list holds the identity exactly once. -/
theorem c7_witness :
    dupContribState.contributors.Nodup ∧
    lookupContribution dupContribState.contributions 3 = 600000 ∧
    dupContribState.contributors = [3] :=
  ⟨(c7_contributor_once dupContribState dupContribState_reachable).1,
   by decide, by decide⟩

/-- C8: a step changes the status only out of Active and only into
Successful, Refunded or Cancelled; contribute, withdraw and refund_single all
fail against a non-Active campaign (so the three non-Active states are
terminal); and each of the three transitions is realized by a concrete
reachable trace (the cancel entry point is modelled from the spec, it is
absent from src/). -/
theorem c8_status_machine :
    (∀ op s, (applyOp op s).status ≠ s.status →
      s.status = Status.Active ∧
      ((applyOp op s).status = Status.Successful ∨
       (applyOp op s).status = Status.Refunded ∨
       (applyOp op s).status = Status.Cancelled)) ∧
    (∀ s auths now c amt, s.status ≠ Status.Active →
      ∃ e, contribute s auths now c amt = .error e) ∧
    (∀ s auths now, s.status ≠ Status.Active →
      withdraw s auths now = .error (.fatal "campaign is not active")) ∧
    (∀ s auths now c, s.status ≠ Status.Active →
      ∃ e, refund_single s auths now c = .error e) ∧
    (twoContribState.status = Status.Active ∧ Reachable succState ∧
      succState.status = Status.Successful) ∧
    (oneContribState.status = Status.Active ∧ Reachable refundedState ∧
      refundedState.status = Status.Refunded) ∧
    (Reachable cancelledState ∧ cancelledState.status = Status.Cancelled) := by
  refine ⟨?_, ?_, ?_, ?_, ⟨by decide, succState_reachable, by decide⟩,
    ⟨by decide, refundedState_reachable, by decide⟩,
    ⟨cancelledState_reachable, by decide⟩⟩
  · intro op s hne
    exact applyOp_status_change op s hne
  · intro s auths now c amt hst
    by_cases h1 : c ∈ auths
    · exact ⟨.fatal "campaign is not active", by simp [contribute, h1, hst]⟩
    · exact ⟨.unauthorized c, by simp [contribute, h1]⟩
  · intro s auths now hst
    simp [withdraw, hst]
  · intro s auths now c hst
    by_cases h1 : c ∈ auths
    · exact ⟨.fatal "campaign is not active", by simp [refund_single, h1, hst]⟩
    · exact ⟨.unauthorized c, by simp [refund_single, h1]⟩

/-- Witness for C8: withdraw against the paid-out (Successful) campaign hits
the campaign-not-active abort. -/
theorem c8_witness :
    withdraw succState [1] 12 = .error (.fatal "campaign is not active") :=
  c8_status_machine.2.2.1 succState [1] 12 (by decide)

/-- C9 as stated is false: initialize performs no positivity check on the
goal; initializing with goal 0 succeeds and stores goal 0. -/
theorem c9_counterexample :
    initCampaign none [1] 1 2 0 10 1000 none = .ok zeroGoalCampaign ∧
    ¬ (0 < zeroGoalCampaign.goal) :=
  ⟨rfl, by decide⟩

/-- C9 (amended): the goal is fixed at initialization — stored exactly as
passed, with no positivity requirement — and no public operation after
initialize ever modifies the goal field. -/
theorem c9_goal_fixed :
    (∀ op s, (applyOp op s).goal = s.goal) ∧
    (∀ auths creator token goal deadline minc cfg s,
      initCampaign none auths creator token goal deadline minc cfg = .ok s →
      s.goal = goal) := by
  constructor
  · intro op s
    exact applyOp_preserves_goal op s
  · intro auths creator token goal deadline minc cfg s h
    obtain ⟨-, -, hs⟩ := initCampaign_ok auths creator token goal deadline minc cfg s h
    subst hs
    rfl

/-- Witness for C9: a contribution leaves the goal untouched, and the boot
campaign stores the goal it was initialized with. -/
theorem c9_witness :
    (applyOp (Op.contributeOp [3] 5 3 600000) bootCampaign).goal =
      bootCampaign.goal ∧
    bootCampaign.goal = 1000000 :=
  ⟨c9_goal_fixed.1 (Op.contributeOp [3] 5 3 600000) bootCampaign,
   c9_goal_fixed.2 [1] 1 2 1000000 10 1000 none bootCampaign rfl⟩

/-- C10: a successful withdraw mutates only total_raised (to 0) and status
(to Successful): the whole new state is the old one with exactly those two
fields replaced, so the ledger cells, the contributor list and the
per-contributor contribution view are untouched. -/
theorem c10_withdraw_frame (s : Campaign) (auths : List Address) (now : Nat)
    (s2 : Campaign) (trs : List Transfer)
    (h : withdraw s auths now = .ok (s2, trs)) :
    s2 = { s with total_raised := 0, status := Status.Successful } ∧
    s2.contributions = s.contributions ∧
    s2.contributors = s.contributors ∧
    (∀ a, contribution s2 a = contribution s a) := by
  obtain ⟨-, -, -, -, hs, -, -⟩ := withdraw_ok s auths now s2 trs h
  subst hs
  exact ⟨rfl, rfl, rfl, fun a => rfl⟩

/-- Witness for C10: the frame property evaluated on the concrete payout:
the ledger and list survive and identity 3 still reads 600000. -/
theorem c10_witness :
    succState =
      { twoContribState with total_raised := 0, status := Status.Successful } ∧
    succState.contributions = twoContribState.contributions ∧
    succState.contributors = twoContribState.contributors ∧
    contribution succState 3 = contribution twoContribState 3 :=
  have h := c10_withdraw_frame twoContribState [1] 11 succState succTrs rfl
  ⟨h.1, h.2.1, h.2.2.1, h.2.2.2 3⟩

end StellarRaise





